import Mathlib

/-!
Verification development for the warp-plus repository: a shallow embedding of
the configuration parser (wiresocks/config.go), the profile writer
(warp/account.go), the orchestrator decision logic (app/app.go), the Psiphon
launcher configuration (psiphon/p.go), the UDP forwarder
(wiresocks, NewVtunUDPForwarder), the mixed-proxy connection handler
(wiresocks, VirtualTun.generalHandler) and the scanner result queue
(ipscanner engine), together with theorems settling the specification claims.
-/

namespace WarpPlus

/-! ## Byte-level codecs: base64 (Go encoding/base64 StdEncoding) and hex -/

/-- Value of one base64 character of the standard alphabet, as in Go
`encoding/base64.StdEncoding` decoding. -/
def b64Val (c : Char) : Option Nat :=
  let n := c.toNat
  if 65 ≤ n ∧ n ≤ 90 then some (n - 65)
  else if 97 ≤ n ∧ n ≤ 122 then some (n - 97 + 26)
  else if 48 ≤ n ∧ n ≤ 57 then some (n - 48 + 52)
  else if n = 43 then some 62
  else if n = 47 then some 63
  else none

/-- The base64 character of a 6-bit value (standard alphabet). -/
def b64Chr (n : Nat) : Char :=
  if n < 26 then Char.ofNat (65 + n)
  else if n < 52 then Char.ofNat (97 + (n - 26))
  else if n < 62 then Char.ofNat (48 + (n - 52))
  else if n = 62 then '+'
  else '/'

/-- Base64 encoding of a byte list (Go `base64.StdEncoding.EncodeToString`),
processing three bytes into four characters, with `=` padding. -/
def b64EncodeBytes : List Nat → List Char
  | [] => []
  | [a] => [b64Chr (a / 4), b64Chr (a % 4 * 16), '=', '=']
  | [a, b] => [b64Chr (a / 4), b64Chr (a % 4 * 16 + b / 16), b64Chr (b % 16 * 4), '=']
  | a :: b :: c :: rest =>
      b64Chr (a / 4) :: b64Chr (a % 4 * 16 + b / 16) :: b64Chr (b % 16 * 4 + c / 64) ::
      b64Chr (c % 64) :: b64EncodeBytes rest

/-- Base64 decoding (Go `base64.StdEncoding.DecodeString`): groups of four
characters; `=` padding only at the very end; length must be a multiple of
four.  Go StdEncoding does not check that unused trailing bits are zero, and
neither does this model. -/
def b64DecodeChars : List Char → Option (List Nat)
  | [] => some []
  | c1 :: c2 :: c3 :: c4 :: rest =>
      if c3 = '=' then
        if c4 = '=' ∧ rest = [] then
          match b64Val c1, b64Val c2 with
          | some v1, some v2 => some [v1 * 4 + v2 / 16]
          | _, _ => none
        else none
      else if c4 = '=' then
        if rest = [] then
          match b64Val c1, b64Val c2, b64Val c3 with
          | some v1, some v2, some v3 => some [v1 * 4 + v2 / 16, v2 % 16 * 16 + v3 / 4]
          | _, _, _ => none
        else none
      else
        match b64Val c1, b64Val c2, b64Val c3, b64Val c4, b64DecodeChars rest with
        | some v1, some v2, some v3, some v4, some tail =>
            some ((v1 * 4 + v2 / 16) :: (v2 % 16 * 16 + v3 / 4) :: (v3 % 4 * 64 + v4) :: tail)
        | _, _, _, _, _ => none
  | _ => none

def b64Encode (bs : List Nat) : String := String.mk (b64EncodeBytes bs)

def b64Decode (s : String) : Option (List Nat) := b64DecodeChars s.data

/-- Lowercase hex digit of a value below 16 (Go `encoding/hex`). -/
def hexChr (n : Nat) : Char :=
  if n < 10 then Char.ofNat (48 + n) else Char.ofNat (97 + (n - 10))

/-- Hex encoding of a byte list, two lowercase digits per byte
(Go `hex.EncodeToString`). -/
def hexEncodeBytes : List Nat → List Char
  | [] => []
  | b :: rest => hexChr (b / 16) :: hexChr (b % 16) :: hexEncodeBytes rest

def hexEncode (bs : List Nat) : String := String.mk (hexEncodeBytes bs)

/-- Value of a hex digit; Go `hex.DecodeString` accepts both cases. -/
def hexVal (c : Char) : Option Nat :=
  if 48 ≤ c.toNat ∧ c.toNat ≤ 57 then some (c.toNat - 48)
  else if 97 ≤ c.toNat ∧ c.toNat ≤ 102 then some (c.toNat - 97 + 10)
  else if 65 ≤ c.toNat ∧ c.toNat ≤ 70 then some (c.toNat - 65 + 10)
  else none

def hexDecodeChars : List Char → Option (List Nat)
  | [] => some []
  | c1 :: c2 :: rest =>
      match hexVal c1, hexVal c2, hexDecodeChars rest with
      | some hi, some lo, some tail => some ((hi * 16 + lo) :: tail)
      | _, _, _ => none
  | _ => none

def hexDecode (s : String) : Option (List Nat) := hexDecodeChars s.data

/-! ## Small string utilities (character-list models of the Go stdlib helpers) -/

/-- Split a character list on a separator character (model of `strings.Split`
at the character level). -/
def splitListOn (sep : Char) : List Char → List (List Char)
  | [] => [[]]
  | c :: rest =>
      if c = sep then [] :: splitListOn sep rest
      else
        match splitListOn sep rest with
        | g :: gs => (c :: g) :: gs
        | [] => [[c]]

/-- ASCII whitespace, as trimmed by `strings.TrimSpace` on the inputs that
occur in INI values. -/
def isSpaceChr (c : Char) : Bool := c = ' ' ∨ c = '\t' ∨ c = '\n' ∨ c = '\r'

def trimChars (l : List Char) : List Char :=
  ((l.dropWhile isSpaceChr).reverse.dropWhile isSpaceChr).reverse

def trimStr (s : String) : String := String.mk (trimChars s.data)

def strSplitOn (sep : Char) (s : String) : List String :=
  (splitListOn sep s.data).map String.mk

/-- Does the second list start with the first (model of `strings.HasPrefix`)? -/
def startsWithChars : List Char → List Char → Bool
  | [], _ => true
  | _ :: _, [] => false
  | p :: ps, c :: cs => p = c && startsWithChars ps cs

def asciiLower (c : Char) : Char :=
  if 65 ≤ c.toNat ∧ c.toNat ≤ 90 then Char.ofNat (c.toNat + 32) else c

def lowerStr (s : String) : String := String.mk (s.data.map asciiLower)

/-- Case-insensitive name equality, modelling go-ini `Insensitive: true`
lookup. -/
def nameEq (a b : String) : Bool := lowerStr a == lowerStr b

/-- Decimal digit character of a value below 10. -/
def decChr (n : Nat) : Char :=
  match n with
  | 0 => '0' | 1 => '1' | 2 => '2' | 3 => '3' | 4 => '4'
  | 5 => '5' | 6 => '6' | 7 => '7' | 8 => '8' | _ => '9'

/-- Digit accumulator with structural fuel (the fuel never runs out when it
starts at the number itself, since a number has at most as many digits as
its value). -/
def natDecCore : Nat → Nat → List Char → List Char
  | 0, n, acc => decChr n :: acc
  | fuel + 1, n, acc =>
      if n < 10 then decChr n :: acc
      else natDecCore fuel (n / 10) (decChr (n % 10) :: acc)

/-- Decimal rendering of a natural number (model of Go integer formatting). -/
def natDec (n : Nat) : String := String.mk (natDecCore n n [])

/-- Value of a nonempty all-digit character list (used by the models of
`strconv` parsing); `none` otherwise. -/
def digitsVal : List Char → Option Nat
  | l =>
      if l ≠ [] ∧ l.all (fun c => 48 ≤ c.toNat ∧ c.toNat ≤ 57) then
        some (l.foldl (fun acc c => acc * 10 + (c.toNat - 48)) 0)
      else none

/-- Model of `strconv.ParseInt` restricted to plain decimal values
(an optional sign followed by digits), which is the only shape occurring
in the WireGuard profiles this program reads and writes. -/
def parseIntStr (s : String) : Option Int :=
  match s.data with
  | '-' :: rest => (digitsVal rest).map (fun n => -(n : Int))
  | '+' :: rest => (digitsVal rest).map (fun n => (n : Int))
  | l => (digitsVal l).map (fun n => (n : Int))

/-! ## Model of Go `net/netip` textual addresses (external stdlib).

An address value is represented by its canonical textual form, so parsing a
valid textual address is the identity; `netip.ParseAddr` round-trips with
`Addr.String` on canonical forms.  IPv4 is modelled precisely (dotted quad,
no leading zeros); IPv6 is approximated by a character-class check, which is
all the claims need. -/

def isDecOctet (s : String) : Bool :=
  s.data ≠ [] && s.data.length ≤ 3 &&
  s.data.all (fun c => 48 ≤ c.toNat ∧ c.toNat ≤ 57) &&
  (match digitsVal s.data with | some n => n ≤ 255 | none => false) &&
  (s.data = ['0'] ∨ s.data.head? ≠ some '0')

def isV4 (s : String) : Bool :=
  match strSplitOn '.' s with
  | [a, b, c, d] => isDecOctet a && isDecOctet b && isDecOctet c && isDecOctet d
  | _ => false

def isV6 (s : String) : Bool :=
  s.data ≠ [] && s.data.contains ':' &&
  s.data.all (fun c =>
    (48 ≤ c.toNat ∧ c.toNat ≤ 57) ∨ (97 ≤ c.toNat ∧ c.toNat ≤ 102) ∨ c = ':' ∨ c = '.')

/-- Model of `netip.ParseAddr`: partial identity on textual addresses. -/
def parseAddr (s : String) : Option String :=
  if isV4 s || isV6 s then some s else none

/-- A CIDR value, modelling `netip.Prefix` as its address text plus bit
count. -/
structure Cidr where
  addr : String
  bits : Nat
deriving DecidableEq, Repr

def cidrString (c : Cidr) : String := c.addr ++ "/" ++ natDec c.bits

/-- Model of `netip.ParsePrefix`: address, slash, decimal bit count bounded
by the address family width. -/
def parseCidr (s : String) : Option Cidr :=
  match strSplitOn '/' s with
  | [a, b] =>
      match parseAddr a, digitsVal b.data with
      | some addr, some bits =>
          if (if isV4 addr then bits ≤ 32 else bits ≤ 128) then some ⟨addr, bits⟩ else none
      | _, _ => none
  | _ => none

/-- A bound address, modelling `netip.AddrPort`. -/
structure AddrPort where
  addr : String
  port : Nat
deriving DecidableEq, Repr

/-- Model of `netip.AddrPort.String` for IPv4 hosts (no bracketing). -/
def addrPortString (ap : AddrPort) : String := ap.addr ++ ":" ++ natDec ap.port

/-- Model of `net.SplitHostPort` for unbracketed hosts: split at the last
colon; the host part must not contain another colon. -/
def splitHostPort (s : String) : Option (String × String) :=
  if s.data.any (fun c => c = '[') then none
  else
    match s.data.reverse.dropWhile (fun c => ¬ c = ':') with
    | _ :: h =>
        if h.any (fun c => c = ':') then none
        else some (String.mk h.reverse,
                   String.mk (s.data.reverse.takeWhile (fun c => ¬ c = ':')).reverse)
    | [] => none

/-! ## Model of a loaded go-ini file (`ini.LoadSources` with
`Insensitive`, `AllowShadows`, `AllowNonUniqueSections`).

The text-to-tree step is the external go-ini library; a loaded file is
modelled as the tree it produces: a list of sections, each holding keys with
their raw value lines (the first line is the main value, the rest are
shadows). -/

structure IniKey where
  name : String
  values : List String
deriving DecidableEq, Repr

structure IniSection where
  name : String
  keys : List IniKey
deriving DecidableEq, Repr

abbrev IniFile := List IniSection

/-- go-ini `File.SectionsByName` under `Insensitive`. -/
def sectionsByName (f : IniFile) (n : String) : List IniSection :=
  f.filter (fun s => nameEq s.name n)

/-- go-ini `Section.GetKey` under `Insensitive` (errors when absent, which
callers model with `Option`). -/
def getKey (s : IniSection) (n : String) : Option IniKey :=
  s.keys.find? (fun k => nameEq k.name n)

/-- go-ini `Key.String`: the main (first) value line. -/
def keyStr (k : IniKey) : String := k.values.headD ""

/-- go-ini `Section.Key(name).String()`: `Key` auto-creates an empty key, so
a missing name reads as the empty string. -/
def sectionKeyStr (s : IniSection) (n : String) : String :=
  match getKey s n with
  | some k => keyStr k
  | none => ""

/-- go-ini v1.67 `Key.ValueWithShadows`: every value line, except that a
key holding a single empty value reads as no values. -/
def valueWithShadows (k : IniKey) : List String :=
  match k.values with
  | [v] => if v = "" then [] else [v]
  | vs => vs

/-- Split one raw value line at commas, trim each piece, drop empties
(the per-value step of go-ini `Key.StringsWithShadows(",")`). -/
def splitTrim (s : String) : List String :=
  ((strSplitOn ',' s).map trimStr).filter (fun x => x ≠ "")

/-- go-ini `Key.StringsWithShadows(",")`. -/
def stringsWithShadows (k : IniKey) : List String :=
  ((valueWithShadows k).map splitTrim).flatten

/-- `StringsWithShadows` through `Section.Key` auto-creation: a missing key
yields no strings. -/
def sectionStrings (s : IniSection) (n : String) : List String :=
  match getKey s n with
  | some k => stringsWithShadows k
  | none => []

/-! ## wiresocks/config.go: configuration types and parser -/

structure PeerConfig where
  publicKey : String
  preSharedKey : String
  endpoint : String
  keepAlive : Int
  allowedIPs : List Cidr
  trick : Bool
deriving DecidableEq, Repr

structure InterfaceConfig where
  privateKey : String
  addresses : List String
  dns : List String
  mtu : Int
deriving DecidableEq, Repr

structure Configuration where
  interface : InterfaceConfig
  peers : List PeerConfig
deriving DecidableEq, Repr

/-- The default pre-shared key (`ParsePeers` in wiresocks/config.go): 64 hex
zeros, an all-zero 32-byte key. -/
def zeros64 : String :=
  "0000000000000000000000000000000000000000000000000000000000000000"

/-- wiresocks/config.go `encodeBase64ToHex`: decode base64, require 32
bytes, re-encode as hex. -/
def encodeBase64ToHex (key : String) : Except String String :=
  match b64Decode key with
  | none => .error ("invalid base64 string: " ++ key)
  | some decoded =>
      if decoded.length ≠ 32 then .error ("key should be 32 bytes: " ++ key)
      else .ok (hexEncode decoded)

/-- The `[Interface]` `Address` loop: each value is parsed as a CIDR and only
its address is kept (the mask is dropped). -/
def parseAddressValues : List String → Except String (List String)
  | [] => .ok []
  | s :: rest =>
      match parseCidr s with
      | some c => do
          let others ← parseAddressValues rest
          pure (c.addr :: others)
      | none => .error ("invalid Address value: " ++ s)

/-- The `[Interface]` `DNS` loop: each value parsed as a plain address. -/
def parseDnsValues : List String → Except String (List String)
  | [] => .ok []
  | s :: rest =>
      match parseAddr s with
      | some a => do
          let others ← parseDnsValues rest
          pure (a :: others)
      | none => .error ("invalid DNS value: " ++ s)

/-- The `[Peer]` `AllowedIPs` loop: CIDR values, masks kept. -/
def parseCidrValues : List String → Except String (List Cidr)
  | [] => .ok []
  | s :: rest =>
      match parseCidr s with
      | some c => do
          let others ← parseCidrValues rest
          pure (c :: others)
      | none => .error ("invalid AllowedIPs value: " ++ s)

/-- A key that is converted through `encodeBase64ToHex` when present, with a
default when absent (the `GetKey`-guarded blocks of `ParsePeers`). -/
def parseKeyField (s : IniSection) (n dflt : String) : Except String String :=
  match getKey s n with
  | some k => encodeBase64ToHex (keyStr k)
  | none => .ok dflt

/-- An integer key read through `Key.Int` when present, defaulting to 0
(the `MTU` and `PersistentKeepalive` blocks). -/
def parseIntField (s : IniSection) (n : String) : Except String Int :=
  match getKey s n with
  | some k =>
      match parseIntStr (keyStr k) with
      | some v => .ok v
      | none => .error ("invalid integer value for " ++ n ++ ": " ++ keyStr k)
  | none => .ok 0

/-- wiresocks/config.go `ParseInterface`: requires exactly one `[Interface]`
section; reads `Address` (keeping only addresses), `PrivateKey`
(base64 to hex), `DNS`, and `MTU` (0 when absent), in source order. -/
def ParseInterface (f : IniFile) : Except String InterfaceConfig :=
  match sectionsByName f "Interface" with
  | [iface] => do
      let addrs ← parseAddressValues (sectionStrings iface "Address")
      let pk ← encodeBase64ToHex (sectionKeyStr iface "PrivateKey")
      let dns ← parseDnsValues (sectionStrings iface "DNS")
      let mtu ← parseIntField iface "MTU"
      pure { privateKey := pk, addresses := addrs, dns := dns, mtu := mtu }
  | _ => .error "only one [Interface] is expected"

/-- One `[Peer]` section of wiresocks/config.go `ParsePeers`: defaults
`PreSharedKey` to the all-zero key and `KeepAlive` to 0; `PublicKey` and
`PreSharedKey` go through `encodeBase64ToHex` when present; the `Trick`
field is never read from the profile and stays `false`. -/
def parsePeerSection (s : IniSection) : Except String PeerConfig := do
  let pk ← parseKeyField s "PublicKey" ""
  let psk ← parseKeyField s "PreSharedKey" zeros64
  let ka ← parseIntField s "PersistentKeepalive"
  let ips ← parseCidrValues (sectionStrings s "AllowedIPs")
  pure { publicKey := pk, preSharedKey := psk, endpoint := sectionKeyStr s "Endpoint",
         keepAlive := ka, allowedIPs := ips, trick := false }

def parsePeerSections : List IniSection → Except String (List PeerConfig)
  | [] => .ok []
  | s :: rest => do
      let p ← parsePeerSection s
      let ps ← parsePeerSections rest
      pure (p :: ps)

/-- wiresocks/config.go `ParsePeers`: at least one `[Peer]` section. -/
def ParsePeers (f : IniFile) : Except String (List PeerConfig) :=
  match sectionsByName f "Peer" with
  | [] => .error "at least one [Peer] is expected"
  | sections => parsePeerSections sections

/-- wiresocks/config.go `ParseConfig` after go-ini has loaded the file:
parse the interface and the peers, then overwrite every peer endpoint with
the `endpoint` argument. -/
def ParseConfig (f : IniFile) (endpoint : String) : Except String Configuration := do
  let iface ← ParseInterface f
  let peers ← ParsePeers f
  pure { interface := iface, peers := peers.map (fun p => { p with endpoint := endpoint }) }

/-! ## warp/account.go: on-disk state files -/

/-- A file-creation effect: the file name joined to the identity directory
and the permission bits the creating call uses. -/
structure FileWrite where
  file : String
  perm : Nat
deriving DecidableEq, Repr

def identityFile : String := "wgcf-identity.json"

def profileFile : String := "wgcf-profile.ini"

/-- warp/account.go `saveIdentity`: the identity JSON is written through
`os.Create`, which creates the file with mode 0666 (before umask). -/
def saveIdentityWrite (path : String) : FileWrite :=
  { file := path ++ "/" ++ identityFile, perm := 0o666 }

/-- warp/account.go `createConf`: the INI profile is written through
`os.WriteFile` with explicit mode 0o600. -/
def createConfWrite (path : String) : FileWrite :=
  { file := path ++ "/" ++ profileFile, perm := 0o600 }

/-- The DNS resolver list `createConf` writes into every profile. -/
def createConfDns : List String :=
  ["1.1.1.1", "1.0.0.1", "8.8.8.8", "8.8.4.4", "9.9.9.9", "149.112.112.112",
   "2606:4700:4700::1111", "2606:4700:4700::1001", "2001:4860:4860::8888",
   "2001:4860:4860::8844", "2620:fe::fe", "2620:fe::9"]

/-- Does the address text contain a dot (used to pick the createConf-style
mask)? -/
def hasDot (s : String) : Bool := s.data.contains '.'

/-- Address with a mask in the style `createConf` writes: `/24` after an
IPv4 address, `/128` after an IPv6 address. -/
def addrWithMask (a : String) : String :=
  if hasDot a then a ++ "/24" else a ++ "/128"

/-- Base64 form of a key stored as hex (the conversion a profile writer must
apply, since `ParseConfig` expects base64 keys while `Configuration` stores
hex). -/
def b64OfHexKey (k : String) : String :=
  match hexDecode k with
  | some bs => b64Encode bs
  | none => k

/-- The `[Interface]` section of a serialized configuration. -/
def ifaceSection (c : Configuration) : IniSection :=
  ⟨"Interface",
    [⟨"PrivateKey", [b64OfHexKey c.interface.privateKey]⟩,
     ⟨"DNS", c.interface.dns⟩,
     ⟨"Address", c.interface.addresses.map addrWithMask⟩]⟩

/-- The `[Peer]` section of one serialized peer. -/
def peerSection (p : PeerConfig) : IniSection :=
  ⟨"Peer",
    [⟨"PublicKey", [b64OfHexKey p.publicKey]⟩,
     ⟨"AllowedIPs", p.allowedIPs.map cidrString⟩,
     ⟨"Endpoint", [p.endpoint]⟩]⟩

/-- Modelled from the spec: the repository has no serializer from
`Configuration` (warp/account.go `createConf` serializes a registration
`Identity`); this definition follows the on-disk INI profile format of the
spec (`[Interface]` with PrivateKey, DNS and Address lines; one `[Peer]`
per peer with PublicKey, AllowedIPs lines and Endpoint), the same shape
`createConf` emits, applied to a `Configuration` value. -/
def serializeConfig (c : Configuration) : IniFile :=
  ifaceSection c :: c.peers.map peerSection

/-- The INI tree of the profile `createConf` writes for interface addresses
`v4`/`v6`, peer public key `pub` (base64) and endpoint host `host`
(warp/account.go lines 264-292). -/
def createConfIni (priv v4 v6 pub host : String) : IniFile :=
  [⟨"Interface",
     [⟨"PrivateKey", [priv]⟩,
      ⟨"DNS", [String.intercalate ", " createConfDns]⟩,
      ⟨"Address", [v4 ++ "/24", v6 ++ "/128"]⟩]⟩,
   ⟨"Peer",
     [⟨"PublicKey", [pub]⟩,
      ⟨"AllowedIPs", ["0.0.0.0/0", "::/0"]⟩,
      ⟨"Endpoint", [host]⟩]⟩]

/-! ## app/app.go: orchestrator -/

structure PsiphonOptions where
  country : String
deriving DecidableEq, Repr

structure ScanOptions where
  v4 : Bool
  v6 : Bool
  maxRTT : Nat
deriving DecidableEq, Repr

structure WarpOptions where
  bind : AddrPort
  endpoint : String
  license : String
  psiphon : Option PsiphonOptions
  gool : Bool
  scan : Option ScanOptions
deriving DecidableEq, Repr

inductive WarpAction
  | createIdentities (license : String)
  | runScan (opts : ScanOptions)
  | startPsiphonScenario (country : String)
  | startGoolScenario
  | startNormalScenario
deriving DecidableEq, Repr

/-- app/app.go `RunWarp` (lines 31-80): the psiphon+gool guard and the
empty-country guard run before identity creation, scanning and scenario
dispatch; the list records the orchestration actions `RunWarp` initiates,
in order, on the path where none of them fails. -/
def RunWarp (opts : WarpOptions) : List WarpAction × Except String Unit :=
  if opts.psiphon.isSome && opts.gool then
    ([], .error "can't use psiphon and gool at the same time")
  else if opts.psiphon.map PsiphonOptions.country == some "" then
    ([], .error "must provide country for psiphon")
  else
    let pre := WarpAction.createIdentities opts.license ::
      (match opts.scan with | some so => [WarpAction.runScan so] | none => [])
    match opts.psiphon with
    | some po => (pre ++ [.startPsiphonScenario po.country], .ok ())
    | none =>
        if opts.gool then (pre ++ [.startGoolScenario], .ok ())
        else (pre ++ [.startNormalScenario], .ok ())

/-- The peer loop of `runWarp` and `runWarpWithPsiphon` and of the outer hop
of `runWarpInWarp` (app/app.go lines 89-93, 117-121, 152-156): every peer
gets `Trick = true` and `KeepAlive = 3`. -/
def outerPeerSetup (peers : List PeerConfig) : List PeerConfig :=
  peers.map (fun p => { p with trick := true, keepAlive := 3 })

/-- The peer loop of the inner hop of `runWarpInWarp` (app/app.go lines
176-179): every peer gets `KeepAlive = 10`; `Trick` is left as parsed. -/
def innerPeerSetup (peers : List PeerConfig) : List PeerConfig :=
  peers.map (fun p => { p with keepAlive := 10 })

def singleMTU : Int := 1330

def doubleMTU : Int := 1280

/-! ## psiphon/p.go: RunPsiphon configuration -/

/-- The fields of the embedded Psiphon configuration JSON that depend on the
arguments of `RunPsiphon` (psiphon/p.go lines 319-343). -/
structure PsiphonConfig where
  egressRegion : String
  listenInterface : String
  localSocksProxyPort : String
  upstreamProxyURL : String
  disableLocalHTTPProxy : Bool
deriving DecidableEq, Repr

/-- psiphon/p.go `RunPsiphon` configuration construction: split the local
socks address, map loopback hosts to the empty listen interface and others
to "any", listen on the given port, and use `socks5://wgBind` as the
upstream proxy. -/
def runPsiphonConfig (wgBind localSocks country : String) : Except String PsiphonConfig :=
  match splitHostPort localSocks with
  | none => .error "invalid local socks address"
  | some (host, port) =>
      let listen := if startsWithChars "127.0.0".data host.data then "" else "any"
      .ok { egressRegion := country, listenInterface := listen,
            localSocksProxyPort := port,
            upstreamProxyURL := "socks5://" ++ wgBind,
            disableLocalHTTPProxy := true }

/-- The bind address `runWarpWithPsiphon` requests for the mixed proxy
(app/app.go line 128): loopback with port 0, so the OS assigns the port. -/
def psiphonProxyBindRequest : AddrPort := { addr := "127.0.0.1", port := 0 }

/-- Data flow of app/app.go `runWarpWithPsiphon` (lines 110-142): the mixed
proxy is requested on `127.0.0.1:0`; `osPort` is the port the OS assigns;
the actually-bound proxy address goes to Psiphon as the upstream, and the
caller-specified `bind` goes to Psiphon as its local socks listener.
Returns (requested proxy bind, actually-bound proxy address, Psiphon
configuration). -/
def runWarpWithPsiphonFlow (bind : AddrPort) (country : String) (osPort : Nat) :
    AddrPort × AddrPort × Except String PsiphonConfig :=
  let warpBind : AddrPort := { addr := psiphonProxyBindRequest.addr, port := osPort }
  (psiphonProxyBindRequest, warpBind,
   runPsiphonConfig (addrPortString warpBind) (addrPortString bind) country)

/-! ## wiresocks: VirtualTun.generalHandler (the mixed-proxy handler)

The handler dials the destination, starts one `io.Copy` per direction,
waits for the first copy to finish, then calls `conn.Close()` and
`req.Conn.Close()` (full closes of both connections) and only afterwards
waits for the second copy.  The model tracks the upstream-to-client
direction's in-flight bytes to express what happens to them. -/

inductive HPhase
  | waitFirst
  | waitSecond
  | finished
deriving DecidableEq, Repr

structure HandlerState where
  /-- the client-to-upstream `io.Copy` has returned (its source reached
  end-of-stream) -/
  c2uDone : Bool
  /-- the upstream-to-client `io.Copy` has returned -/
  u2cDone : Bool
  /-- bytes the upstream has produced that the upstream-to-client copy has
  not yet delivered to the client -/
  inflight : List Nat
  /-- bytes delivered to the client -/
  delivered : List Nat
  /-- both connections have been closed by the handler -/
  closed : Bool
  phase : HPhase
deriving DecidableEq, Repr

/-- Transitions of `generalHandler` (wiresocks, VirtualTun.generalHandler):
`firstDone` models `err = <-done` followed immediately by `conn.Close()`
and `req.Conn.Close()`; `u2cAborted` models the second copy failing because
its connections were closed under it, dropping in-flight data;
`secondDone` models the final `<-done`. -/
inductive HandlerStep : HandlerState → HandlerState → Prop
  | deliver (s : HandlerState) (b : Nat) (rest : List Nat) :
      s.closed = false → s.u2cDone = false → s.inflight = b :: rest →
      HandlerStep s { s with inflight := rest, delivered := s.delivered ++ [b] }
  | clientEOF (s : HandlerState) :
      s.c2uDone = false →
      HandlerStep s { s with c2uDone := true }
  | upstreamEOF (s : HandlerState) :
      s.u2cDone = false → s.inflight = [] →
      HandlerStep s { s with u2cDone := true }
  | u2cAborted (s : HandlerState) :
      s.closed = true → s.u2cDone = false →
      HandlerStep s { s with u2cDone := true, inflight := [] }
  | firstDone (s : HandlerState) :
      s.phase = .waitFirst → (s.c2uDone = true ∨ s.u2cDone = true) →
      HandlerStep s { s with closed := true, phase := .waitSecond }
  | secondDone (s : HandlerState) :
      s.phase = .waitSecond → s.c2uDone = true → s.u2cDone = true →
      HandlerStep s { s with phase := .finished }

/-- Start of a handled connection with `inflight0` bytes on their way from
the upstream to the client. -/
def handlerInit (inflight0 : List Nat) : HandlerState :=
  { c2uDone := false, u2cDone := false, inflight := inflight0,
    delivered := [], closed := false, phase := .waitFirst }

def HandlerReach : HandlerState → HandlerState → Prop :=
  Relation.ReflTransGen HandlerStep

/-! ## wiresocks: NewVtunUDPForwarder

Each forwarding goroutine loops on a `select` whose `ctx.Done()` branch is
only consulted between reads; the `default` branch performs a blocking
read.  The closing goroutine waits for both loops to exit and only then
closes the two sockets.  The model tracks the datagrams queued at each
socket, the learned client address, and the histories needed by the
claims. -/

inductive GoPhase
  | atSelect
  | blockedRead
  | exited
deriving DecidableEq, Repr

structure FwdState where
  /-- goroutine reading from the host UDP listener -/
  hostLoop : GoPhase
  /-- goroutine reading from the virtual-stack UDP socket -/
  tunLoop : GoPhase
  cancelled : Bool
  /-- source addresses of datagrams queued at the host listener -/
  hostInbox : List Nat
  /-- datagrams queued at the virtual-stack socket -/
  tunInbox : List Nat
  clientAddr : Option Nat
  /-- sources read by the host loop, in order -/
  readSources : List Nat
  /-- targets of replies written by the tun loop, in order -/
  replyTargets : List Nat
  /-- datagrams forwarded to the remote destination -/
  forwardedToDest : Nat
  listenerClosed : Bool
  rconnClosed : Bool
deriving DecidableEq, Repr

/-- Transitions of the forwarder (wiresocks, NewVtunUDPForwarder).
`hostRead` models a successful `listener.ReadFrom`: it overwrites
`clientAddr` with the datagram source on every read and forwards the
payload to the destination.  `tunRead` models a successful
`rconn.ReadFrom`: the reply is written to the current `clientAddr` when one
is set.  `closeSockets` models the goroutine that runs after `wg.Wait()`. -/
inductive FwdStep : FwdState → FwdState → Prop
  | hostSelectCancel (s : FwdState) :
      s.hostLoop = .atSelect → s.cancelled = true →
      FwdStep s { s with hostLoop := .exited }
  | hostSelectRead (s : FwdState) :
      s.hostLoop = .atSelect → s.cancelled = false →
      FwdStep s { s with hostLoop := .blockedRead }
  | hostRead (s : FwdState) (a : Nat) (rest : List Nat) :
      s.hostLoop = .blockedRead → s.listenerClosed = false → s.hostInbox = a :: rest →
      FwdStep s { s with hostLoop := .atSelect, hostInbox := rest,
                         clientAddr := some a,
                         readSources := s.readSources ++ [a],
                         forwardedToDest := s.forwardedToDest + 1 }
  | hostReadErr (s : FwdState) :
      s.hostLoop = .blockedRead → s.listenerClosed = true →
      FwdStep s { s with hostLoop := .atSelect }
  | tunSelectCancel (s : FwdState) :
      s.tunLoop = .atSelect → s.cancelled = true →
      FwdStep s { s with tunLoop := .exited }
  | tunSelectRead (s : FwdState) :
      s.tunLoop = .atSelect → s.cancelled = false →
      FwdStep s { s with tunLoop := .blockedRead }
  | tunRead (s : FwdState) (d : Nat) (rest : List Nat) :
      s.tunLoop = .blockedRead → s.rconnClosed = false → s.tunInbox = d :: rest →
      FwdStep s { s with tunLoop := .atSelect, tunInbox := rest,
                         replyTargets := s.replyTargets ++
                           (match s.clientAddr with | some a => [a] | none => []) }
  | tunReadErr (s : FwdState) :
      s.tunLoop = .blockedRead → s.rconnClosed = true →
      FwdStep s { s with tunLoop := .atSelect }
  | cancel (s : FwdState) :
      s.cancelled = false →
      FwdStep s { s with cancelled := true }
  | closeSockets (s : FwdState) :
      s.hostLoop = .exited → s.tunLoop = .exited → s.listenerClosed = false →
      FwdStep s { s with listenerClosed := true, rconnClosed := true }

/-- Forwarder start state with the given datagrams queued at each socket. -/
def fwdInit (hostInbox tunInbox : List Nat) : FwdState :=
  { hostLoop := .atSelect, tunLoop := .atSelect, cancelled := false,
    hostInbox := hostInbox, tunInbox := tunInbox, clientAddr := none,
    readSources := [], replyTargets := [], forwardedToDest := 0,
    listenerClosed := false, rconnClosed := false }

def FwdReach : FwdState → FwdState → Prop := Relation.ReflTransGen FwdStep

/-! ## Scanner result queue (ipscanner engine)

Modelled from the spec: the IPQueue implementation
(ipscanner/internal/engine) is not among the sources; the spec describes it
as an ordered collection capped at a capacity (default 8), keyed by
address, sorted ascending by RTT, with insertion rules (insert when below
capacity; otherwise evict the maximum when the new RTT is smaller; ignore
duplicate addresses) and an expiration sweep dropping entries older than a
TTL.  The engine loop in the sources (`Engine.Run`) mutates the queue only
through `Enqueue` and `Expire`, and `Engine.GetAvailableIPs desc` returns
`ipQueue.AvailableIPs desc`. -/

structure IPInfo where
  address : String
  port : Nat
  rtt : Nat
  createdAt : Nat
deriving DecidableEq, Repr

/-- Ordering of scan results by round-trip time. -/
def rttLE (x y : IPInfo) : Prop := x.rtt ≤ y.rtt

instance : DecidableRel rttLE := fun x y => Nat.decLe x.rtt y.rtt

instance : IsTotal IPInfo rttLE := ⟨fun a b => Nat.le_total a.rtt b.rtt⟩

instance : IsTrans IPInfo rttLE := ⟨fun _ _ _ h1 h2 => Nat.le_trans h1 h2⟩

structure IPQueue where
  items : List IPInfo
  capacity : Nat
  ttl : Nat
deriving DecidableEq, Repr

/-- Modelled from the spec: default capacity of the available set. -/
def defaultQueueCapacity : Nat := 8

/-- Modelled from the spec: insertion rules of the result queue — ignore a
duplicate address; insert in RTT order while below capacity; otherwise,
when the new RTT beats the current maximum (the last element of the sorted
list), evict that maximum and insert. -/
def Enqueue (q : IPQueue) (x : IPInfo) : IPQueue :=
  if q.items.any (fun y => y.address == x.address) then q
  else if q.items.length < q.capacity then
    { q with items := q.items.orderedInsert rttLE x }
  else
    match q.items.getLast? with
    | some m =>
        if x.rtt < m.rtt then { q with items := q.items.dropLast.orderedInsert rttLE x }
        else q
    | none => q

/-- Modelled from the spec: the expiration sweep keeps entries whose age is
at most the TTL. -/
def Expire (q : IPQueue) (now : Nat) : IPQueue :=
  { q with items := q.items.filter (fun y => now ≤ y.createdAt + q.ttl) }

/-- Modelled from the spec and the `desc` parameter of
`Engine.GetAvailableIPs`: a snapshot of the available set, reversed when a
descending order is requested. -/
def AvailableIPs (q : IPQueue) (desc : Bool) : List IPInfo :=
  if desc then q.items.reverse else q.items

/-- src (ipscanner engine): `Engine.GetAvailableIPs` returns
`e.ipQueue.AvailableIPs(desc)`. -/
def GetAvailableIPs (q : IPQueue) (desc : Bool) : List IPInfo := AvailableIPs q desc

/-- The queue operations `Engine.Run` performs: enqueue a probe result, or
run the expiration sweep. -/
inductive QOp
  | enq (x : IPInfo)
  | expire (now : Nat)
deriving DecidableEq, Repr

def applyQOp (q : IPQueue) : QOp → IPQueue
  | .enq x => Enqueue q x
  | .expire now => Expire q now

def runQOps (q : IPQueue) : List QOp → IPQueue
  | [] => q
  | op :: rest => runQOps (applyQOp q op) rest

def emptyQueue (cap ttl : Nat) : IPQueue := { items := [], capacity := cap, ttl := ttl }

/-- Distinct addresses, pairwise. -/
def addrNe (a b : IPInfo) : Prop := a.address ≠ b.address

/-- The three invariant conditions of the available set. -/
def QueueInv (q : IPQueue) : Prop :=
  q.items.length ≤ q.capacity ∧ q.items.Sorted rttLE ∧ q.items.Pairwise addrNe

/-! ## Canonical encodings for the profile round trip -/

/-- A key in canonical internal encoding: lowercase hex of exactly 32
bytes. -/
def canonicalKeyHex (k : String) : Bool :=
  match hexDecode k with
  | some bs => bs.length == 32 && hexEncode bs == k
  | none => false

/-- A value line that go-ini comma splitting and trimming passes through
unchanged. -/
def canonicalValue (s : String) : Bool := splitTrim s == [s]

def canonicalAddress (a : String) : Bool :=
  parseAddr a == some a && canonicalValue (addrWithMask a) &&
  (match parseCidr (addrWithMask a) with
   | some c => c.addr == a
   | none => false)

def canonicalDns (a : String) : Bool := parseAddr a == some a && canonicalValue a

def canonicalCidr (c : Cidr) : Bool :=
  parseCidr (cidrString c) == some c && canonicalValue (cidrString c)

/-- A peer in canonical encoding whose fields the profile format does not
record are at their parse-time defaults, and whose endpoint equals the
endpoint `ParseConfig` is called with. -/
def canonicalPeer (e : String) (p : PeerConfig) : Bool :=
  canonicalKeyHex p.publicKey && p.preSharedKey == zeros64 && p.keepAlive == 0 &&
  p.allowedIPs.all canonicalCidr && p.endpoint == e && p.trick == false

/-- A configuration in canonical encoding whose serialized profile can be
parsed back with endpoint argument `e`: canonical hex keys, canonical
address texts, and every field the on-disk profile format does not record
at its parse-time default (`mtu = 0`, default pre-shared key,
`keepAlive = 0`, `trick = false`), with every peer endpoint equal to the
endpoint `ParseConfig` is called with. -/
def CanonicalConfig (c : Configuration) (e : String) : Bool :=
  canonicalKeyHex c.interface.privateKey &&
  c.interface.addresses.all canonicalAddress &&
  c.interface.dns.all canonicalDns &&
  c.interface.mtu == 0 &&
  !c.peers.isEmpty &&
  c.peers.all (canonicalPeer e)

/-! ## Concrete instances used by counterexamples and witnesses -/

/-- Base64 of the all-zero 32-byte key. -/
def zeroKeyB64 : String := "AAAAAAAAAAAAAAAAAAAAAAAAAAAAAAAAAAAAAAAAAAA="

/-- A minimal loadable profile tree: an `[Interface]` with a private key and
a `[Peer]` section. -/
def c6IniEx : IniFile :=
  [⟨"Interface", [⟨"PrivateKey", [zeroKeyB64]⟩]⟩, ⟨"Peer", []⟩]

/-- The configuration `ParseConfig c6IniEx "10.0.0.1:2408"` produces. -/
def c6ConfEx : Configuration :=
  { interface := { privateKey := zeros64, addresses := [], dns := [], mtu := 0 },
    peers := [{ publicKey := "", preSharedKey := zeros64, endpoint := "10.0.0.1:2408",
                keepAlive := 0, allowedIPs := [], trick := false }] }

/-- Options with both psiphon and gool selected. -/
def c5OptsEx : WarpOptions :=
  { bind := { addr := "127.0.0.1", port := 8086 }, endpoint := "162.159.192.1:2408",
    license := "", psiphon := some { country := "AT" }, gool := true, scan := none }

/-- A canonically-encoded configuration whose peer keep-alive is 3: the
on-disk profile format records no keep-alive, so the round trip loses it. -/
def c8BadEx : Configuration :=
  { interface := { privateKey := zeros64, addresses := ["10.0.0.2"], dns := ["1.1.1.1"], mtu := 0 },
    peers := [{ publicKey := zeros64, preSharedKey := zeros64,
                endpoint := "162.159.192.1:2408", keepAlive := 3,
                allowedIPs := [⟨"0.0.0.0", 0⟩], trick := false }] }

/-- A fully canonical configuration for the amended round trip. -/
def c8CanonEx : Configuration :=
  { interface := { privateKey := zeros64, addresses := ["10.0.0.2"], dns := ["1.1.1.1"], mtu := 0 },
    peers := [{ publicKey := zeros64, preSharedKey := zeros64,
                endpoint := "162.159.192.1:2408", keepAlive := 0,
                allowedIPs := [⟨"0.0.0.0", 0⟩], trick := false }] }

/-- Handler run end state in which the client-to-upstream direction hit
end-of-stream first and the in-flight upstream byte was dropped. -/
def c2LossFinal : HandlerState :=
  { c2uDone := true, u2cDone := true, inflight := [], delivered := [],
    closed := true, phase := .finished }

/-- Forwarder state with both goroutines blocked in reads, cancellation
requested, and no datagram ever arriving. -/
def c3Stuck : FwdState :=
  { hostLoop := .blockedRead, tunLoop := .blockedRead, cancelled := true,
    hostInbox := [], tunInbox := [], clientAddr := none, readSources := [],
    replyTargets := [], forwardedToDest := 0,
    listenerClosed := false, rconnClosed := false }

/-- Forwarder state with cancellation requested while both loops are at
their select points. -/
def c3CancelAtSelect : FwdState :=
  { hostLoop := .atSelect, tunLoop := .atSelect, cancelled := true,
    hostInbox := [], tunInbox := [], clientAddr := none, readSources := [],
    replyTargets := [], forwardedToDest := 0,
    listenerClosed := false, rconnClosed := false }

/-- Forwarder state after a clean shutdown: both loops observed the
cancellation at their select points, exited, and the sockets were closed. -/
def c3Closed : FwdState :=
  { hostLoop := .exited, tunLoop := .exited, cancelled := true,
    hostInbox := [], tunInbox := [], clientAddr := none, readSources := [],
    replyTargets := [], forwardedToDest := 0,
    listenerClosed := true, rconnClosed := true }

/-- Forwarder start with two host datagrams from sources 1 and 2 queued,
and one reply queued at the virtual-stack socket. -/
def c4Init : FwdState := fwdInit [1, 2] [5]

/-- Forwarder state after reading both host datagrams and then forwarding
the reply: the reply went to source 2, the most recent, not to the first
source 1. -/
def c4Final : FwdState :=
  { hostLoop := .atSelect, tunLoop := .atSelect, cancelled := false,
    hostInbox := [], tunInbox := [], clientAddr := some 2,
    readSources := [1, 2], replyTargets := [2], forwardedToDest := 2,
    listenerClosed := false, rconnClosed := false }

/-- Queue state after enqueuing RTT 5 and then RTT 3. -/
def c1QueueEx : IPQueue :=
  runQOps (emptyQueue defaultQueueCapacity 30)
    [.enq { address := "a", port := 2408, rtt := 5, createdAt := 0 },
     .enq { address := "b", port := 2408, rtt := 3, createdAt := 0 }]

instance {ε α : Type} [DecidableEq ε] [DecidableEq α] : DecidableEq (Except ε α) :=
  fun x y =>
    match x, y with
    | .ok a, .ok b =>
        if h : a = b then isTrue (by rw [h]) else isFalse (fun hc => h (Except.ok.inj hc))
    | .error e, .error f =>
        if h : e = f then isTrue (by rw [h]) else isFalse (fun hc => h (Except.error.inj hc))
    | .ok _, .error _ => isFalse (fun hc => Except.noConfusion hc)
    | .error _, .ok _ => isFalse (fun hc => Except.noConfusion hc)

/-! # Theorems -/

/-! ## Generic helpers about `Except` -/

theorem except_bind_ok {α β : Type} {x : Except String α} {f : α → Except String β} {b : β}
    (h : (x >>= f) = .ok b) : ∃ a, x = .ok a ∧ f a = .ok b := by
  cases x with
  | ok a => exact ⟨a, rfl, h⟩
  | error e => exact absurd h (by simp [Bind.bind, Except.bind])

theorem except_pure_ok {α : Type} {a b : α} (h : (pure a : Except String α) = .ok b) : a = b :=
  Except.ok.inj h

/-! ## Base64 and hex round trip -/

theorem b64Val_b64Chr : ∀ n < 64, b64Val (b64Chr n) = some n := by decide

theorem b64Chr_ne_pad : ∀ n < 64, b64Chr n ≠ '=' := by decide

theorem b64_decode_encode :
    ∀ bs : List Nat, (∀ x ∈ bs, x < 256) → b64DecodeChars (b64EncodeBytes bs) = some bs
  | [], _ => rfl
  | [a], h => by
      have ha : a < 256 := h a (by simp)
      have h1 : a / 4 < 64 := by omega
      have h2 : a % 4 * 16 < 64 := by omega
      simp only [b64EncodeBytes, b64DecodeChars, if_pos rfl, and_self, if_true,
        b64Val_b64Chr _ h1, b64Val_b64Chr _ h2]
      simp only [Option.some.injEq, List.cons.injEq, and_true]
      omega
  | [a, b], h => by
      have ha : a < 256 := h a (by simp)
      have hb : b < 256 := h b (by simp)
      have h1 : a / 4 < 64 := by omega
      have h2 : a % 4 * 16 + b / 16 < 64 := by omega
      have h3 : b % 16 * 4 < 64 := by omega
      simp only [b64EncodeBytes, b64DecodeChars, if_neg (b64Chr_ne_pad _ h3), if_pos rfl,
        b64Val_b64Chr _ h1, b64Val_b64Chr _ h2, b64Val_b64Chr _ h3, if_true]
      simp only [Option.some.injEq, List.cons.injEq, and_true]
      constructor
      · omega
      · omega
  | a :: b :: c :: rest, h => by
      have ha : a < 256 := h a (by simp)
      have hb : b < 256 := h b (by simp)
      have hc : c < 256 := h c (by simp)
      have ih := b64_decode_encode rest (fun x hx => h x (by simp [hx]))
      have h1 : a / 4 < 64 := by omega
      have h2 : a % 4 * 16 + b / 16 < 64 := by omega
      have h3 : b % 16 * 4 + c / 64 < 64 := by omega
      have h4 : c % 64 < 64 := by omega
      simp only [b64EncodeBytes, b64DecodeChars, if_neg (b64Chr_ne_pad _ h3),
        if_neg (b64Chr_ne_pad _ h4), b64Val_b64Chr _ h1, b64Val_b64Chr _ h2,
        b64Val_b64Chr _ h3, b64Val_b64Chr _ h4, ih]
      simp only [Option.some.injEq, List.cons.injEq]
      refine ⟨by omega, by omega, by omega, trivial⟩

theorem hexVal_lt {c : Char} {v : Nat} (h : hexVal c = some v) : v < 16 := by
  unfold hexVal at h
  split_ifs at h with h1 h2 h3 <;> (injection h with h4; omega)

theorem hexDecodeChars_lt :
    ∀ l : List Char, ∀ bs : List Nat, hexDecodeChars l = some bs → ∀ x ∈ bs, x < 256
  | [], bs, h => by
      simp only [hexDecodeChars, Option.some.injEq] at h
      subst h; simp
  | [c], bs, h => by simp [hexDecodeChars] at h
  | c1 :: c2 :: rest, bs, h => by
      simp only [hexDecodeChars] at h
      cases hv1 : hexVal c1 with
      | none => rw [hv1] at h; simp at h
      | some hi =>
        cases hv2 : hexVal c2 with
        | none => rw [hv1, hv2] at h; simp at h
        | some lo =>
          cases htail : hexDecodeChars rest with
          | none => rw [hv1, hv2, htail] at h; simp at h
          | some tail =>
            rw [hv1, hv2, htail] at h
            simp only [Option.some.injEq] at h
            subst h
            intro x hx
            rcases List.mem_cons.mp hx with hx | hx
            · have := hexVal_lt hv1
              have := hexVal_lt hv2
              omega
            · exact hexDecodeChars_lt rest tail htail x hx

theorem canonicalKeyHex_roundtrip {k : String} (h : canonicalKeyHex k = true) :
    encodeBase64ToHex (b64OfHexKey k) = .ok k := by
  unfold canonicalKeyHex at h
  cases hd : hexDecode k with
  | none => rw [hd] at h; simp at h
  | some bs =>
      rw [hd] at h
      simp only [Bool.and_eq_true, beq_iff_eq] at h
      obtain ⟨hlen, henc⟩ := h
      have hlt : ∀ x ∈ bs, x < 256 := hexDecodeChars_lt k.data bs hd
      have hdec : b64Decode (b64Encode bs) = some bs := b64_decode_encode bs hlt
      unfold b64OfHexKey
      rw [hd]
      unfold encodeBase64ToHex
      rw [hdec]
      simp [hlen, henc]

/-! ## C9: file modes of the on-disk state files -/

/-- C9 counterexample: `saveIdentity` creates `wgcf-identity.json` through
`os.Create`, whose mode is 0666, not 0600 as claimed. -/
theorem c9_counterexample : (saveIdentityWrite "stuff/primary").perm ≠ 0o600 := by decide

/-- C9 (amended): `createConf` writes `wgcf-profile.ini` with mode 0600;
`saveIdentity` creates `wgcf-identity.json` with `os.Create`, i.e. mode
0666 before umask. -/
theorem c9_file_modes :
    ∀ path : String, (createConfWrite path).perm = 0o600 ∧ (saveIdentityWrite path).perm = 0o666 :=
  fun _ => ⟨rfl, rfl⟩

/-! ## C5: psiphon and gool are mutually exclusive -/

/-- C5: for options with the psiphon option set and the gool flag set,
`RunWarp` returns an error with the empty action list: no identity
creation, scan, tunnel or proxy is started. -/
theorem c5_psiphon_gool_rejected :
    ∀ opts : WarpOptions, opts.psiphon.isSome = true → opts.gool = true →
      RunWarp opts = ([], .error "can't use psiphon and gool at the same time") := by
  intro opts h1 h2
  unfold RunWarp
  simp [h1, h2]

/-- C5 witness at a concrete option value. -/
theorem c5_psiphon_gool_rejected_witness :
    RunWarp c5OptsEx = ([], .error "can't use psiphon and gool at the same time") :=
  c5_psiphon_gool_rejected c5OptsEx rfl rfl

/-! ## C2: the mixed-proxy handler on end-of-stream -/

/-- A run of `generalHandler` in which the client direction hits
end-of-stream first and the in-flight upstream byte is dropped: the handler
closes both connections right after the first copy finishes, which aborts
the second copy. -/
theorem c2_reach_loss : HandlerReach (handlerInit [7]) c2LossFinal :=
  Relation.ReflTransGen.head (HandlerStep.clientEOF (handlerInit [7]) rfl)
    (Relation.ReflTransGen.head (HandlerStep.firstDone _ rfl (Or.inl rfl))
      (Relation.ReflTransGen.head (HandlerStep.u2cAborted _ rfl rfl)
        (Relation.ReflTransGen.head (HandlerStep.secondDone _ rfl rfl rfl)
          Relation.ReflTransGen.refl)))

/-- C2 counterexample: it is not the case that the direction opposite the
first end-of-stream continues delivering in-flight data to completion: a
run exists in which the handler finishes with the in-flight byte 7
undelivered. -/
theorem c2_counterexample :
    ¬ (∀ s, HandlerReach (handlerInit [7]) s → s.phase = .finished → s.delivered = [7]) := by
  intro hall
  have h := hall c2LossFinal c2_reach_loss rfl
  simp [c2LossFinal] at h

/-- C2 (amended): on end-of-stream in either direction the handler fully
closes both connections (there is no half close) and only then waits for
the opposite copy, which may be aborted with its in-flight data
undelivered: both connections are closed as soon as some direction has
finished and before the handler returns. -/
theorem c2_amended :
    ∀ (inflight0 : List Nat) (s : HandlerState), HandlerReach (handlerInit inflight0) s →
      (s.closed = true → (s.c2uDone = true ∨ s.u2cDone = true) ∧ s.phase ≠ HPhase.waitFirst) ∧
      (s.phase = .waitSecond → s.closed = true) ∧
      (s.phase = .finished → s.closed = true) := by
  intro inflight0 s h
  induction h with
  | refl => simp [handlerInit]
  | tail _ hstep ih =>
      cases hstep with
      | deliver b rest h1 h2 h3 => exact ih
      | clientEOF h1 =>
          exact ⟨fun hc => ⟨Or.inl rfl, (ih.1 hc).2⟩, ih.2.1, ih.2.2⟩
      | upstreamEOF h1 h2 =>
          exact ⟨fun hc => ⟨Or.inr rfl, (ih.1 hc).2⟩, ih.2.1, ih.2.2⟩
      | u2cAborted h1 h2 =>
          exact ⟨fun hc => ⟨Or.inr rfl, (ih.1 hc).2⟩, ih.2.1, ih.2.2⟩
      | firstDone h1 h2 =>
          exact ⟨fun _ => ⟨h2, by simp⟩, fun _ => rfl, by simp⟩
      | secondDone h1 h2 h3 =>
          exact ⟨fun _ => ⟨Or.inl h2, by simp⟩, by simp, fun _ => ih.2.1 h1⟩

/-- C2 amended witness at the concrete lossy run. -/
theorem c2_amended_witness :
    (c2LossFinal.closed = true →
      (c2LossFinal.c2uDone = true ∨ c2LossFinal.u2cDone = true) ∧
      c2LossFinal.phase ≠ HPhase.waitFirst) ∧
    (c2LossFinal.phase = .waitSecond → c2LossFinal.closed = true) ∧
    (c2LossFinal.phase = .finished → c2LossFinal.closed = true) :=
  c2_amended [7] c2LossFinal c2_reach_loss

/-! ## C3: forwarder shutdown on context cancellation -/

/-- The forwarder reaches the state where both goroutines are blocked in
reads with cancellation requested and no datagram ever arriving. -/
theorem c3_reach_stuck : FwdReach (fwdInit [] []) c3Stuck :=
  Relation.ReflTransGen.head (FwdStep.hostSelectRead (fwdInit [] []) rfl rfl)
    (Relation.ReflTransGen.head (FwdStep.tunSelectRead _ rfl rfl)
      (Relation.ReflTransGen.head (FwdStep.cancel _ rfl)
        Relation.ReflTransGen.refl))

/-- From the stuck state nothing ever closes the sockets: each goroutine is
inside a blocking read, the cancellation branch of its select is only
consulted between reads, and the closing goroutine runs only after both
loops exit. -/
theorem c3_stuck_invariant :
    ∀ u, FwdReach c3Stuck u →
      u.hostLoop = .blockedRead ∧ u.tunLoop = .blockedRead ∧ u.hostInbox = [] ∧
      u.tunInbox = [] ∧ u.listenerClosed = false ∧ u.rconnClosed = false := by
  intro u hu
  induction hu with
  | refl => exact ⟨rfl, rfl, rfl, rfl, rfl, rfl⟩
  | tail _ hstep ih =>
      cases hstep <;> simp_all

/-- C3 counterexample: cancellation does not cause the sockets to be closed
regardless of datagram arrival — in the run with no arriving datagrams
where cancellation comes after both goroutines entered their reads, no
continuation ever closes the sockets. -/
theorem c3_counterexample :
    ¬ (∀ s, FwdReach (fwdInit [] []) s → s.cancelled = true →
        ∃ t, FwdReach s t ∧ t.listenerClosed = true ∧ t.rconnClosed = true) := by
  intro hall
  obtain ⟨t, hst, hlc, _⟩ := hall c3Stuck c3_reach_stuck rfl
  have h := (c3_stuck_invariant t hst).2.2.2.2.1
  rw [hlc] at h
  exact Bool.noConfusion h

/-- Safety invariant of the forwarder: a loop only exits after observing
the cancellation at its select point, and the sockets are closed together
and only after both loops exited. -/
theorem fwd_close_invariant :
    ∀ (hi ti : List Nat) (s : FwdState), FwdReach (fwdInit hi ti) s →
      (s.hostLoop = .exited → s.cancelled = true) ∧
      (s.tunLoop = .exited → s.cancelled = true) ∧
      s.listenerClosed = s.rconnClosed ∧
      (s.listenerClosed = true → s.hostLoop = .exited ∧ s.tunLoop = .exited) := by
  intro hi ti s h
  induction h with
  | refl => simp [fwdInit]
  | tail _ hstep ih =>
      obtain ⟨ih1, ih2, ih3, ih4⟩ := ih
      cases hstep with
      | hostSelectCancel h1 h2 =>
          exact ⟨fun _ => h2, ih2, ih3, fun hc => ⟨rfl, (ih4 hc).2⟩⟩
      | hostSelectRead h1 h2 =>
          refine ⟨?_, ih2, ih3, ?_⟩
          · intro hx; simp at hx
          · intro hc
            have hcon := (ih4 hc).1
            rw [h1] at hcon
            exact absurd hcon (by decide)
      | hostRead a rest h1 h2 h3 =>
          refine ⟨?_, ih2, ih3, ?_⟩
          · intro hx; simp at hx
          · intro hc
            have hcon := (ih4 hc).1
            rw [h1] at hcon
            exact absurd hcon (by decide)
      | hostReadErr h1 h2 =>
          refine ⟨?_, ih2, ih3, ?_⟩
          · intro hx; simp at hx
          · intro hc
            have hcon := (ih4 hc).1
            rw [h1] at hcon
            exact absurd hcon (by decide)
      | tunSelectCancel h1 h2 =>
          exact ⟨ih1, fun _ => h2, ih3, fun hc => ⟨(ih4 hc).1, rfl⟩⟩
      | tunSelectRead h1 h2 =>
          refine ⟨ih1, ?_, ih3, ?_⟩
          · intro hx; simp at hx
          · intro hc
            have hcon := (ih4 hc).2
            rw [h1] at hcon
            exact absurd hcon (by decide)
      | tunRead d rest h1 h2 h3 =>
          refine ⟨ih1, ?_, ih3, ?_⟩
          · intro hx; simp at hx
          · intro hc
            have hcon := (ih4 hc).2
            rw [h1] at hcon
            exact absurd hcon (by decide)
      | tunReadErr h1 h2 =>
          refine ⟨ih1, ?_, ih3, ?_⟩
          · intro hx; simp at hx
          · intro hc
            have hcon := (ih4 hc).2
            rw [h1] at hcon
            exact absurd hcon (by decide)
      | cancel h1 =>
          exact ⟨fun _ => rfl, fun _ => rfl, ih3, ih4⟩
      | closeSockets h1 h2 h3 =>
          exact ⟨ih1, ih2, rfl, fun _ => ⟨h1, h2⟩⟩

/-- C3 (amended): the sockets are closed only after both forwarding
goroutines exit, which requires each to observe the cancellation at the top
of its loop (a goroutine blocked in a read with no arriving datagram never
exits, as the counterexample run shows); conversely, when cancellation is
observed with both goroutines at their select points, both exit and both
sockets are then closed. -/
theorem c3_amended :
    (∀ (hi ti : List Nat) (s : FwdState), FwdReach (fwdInit hi ti) s →
      s.listenerClosed = true →
        s.hostLoop = .exited ∧ s.tunLoop = .exited ∧ s.cancelled = true) ∧
    (∀ s : FwdState, s.hostLoop = .atSelect → s.tunLoop = .atSelect → s.cancelled = true →
      s.listenerClosed = false →
        ∃ t, FwdReach s t ∧ t.hostLoop = .exited ∧ t.tunLoop = .exited ∧
          t.listenerClosed = true ∧ t.rconnClosed = true) := by
  constructor
  · intro hi ti s h hc
    have hinv := fwd_close_invariant hi ti s h
    obtain ⟨hev, htv⟩ := hinv.2.2.2 hc
    exact ⟨hev, htv, hinv.1 hev⟩
  · intro s h1 h2 h3 h4
    refine ⟨{ s with hostLoop := GoPhase.exited, tunLoop := GoPhase.exited, listenerClosed := true, rconnClosed := true }, ?_, rfl, rfl, rfl, rfl⟩
    exact Relation.ReflTransGen.head (FwdStep.hostSelectCancel s h1 h3)
      (Relation.ReflTransGen.head (FwdStep.tunSelectCancel _ h2 h3)
        (Relation.ReflTransGen.head (FwdStep.closeSockets _ rfl rfl h4)
          Relation.ReflTransGen.refl))

/-- The forwarder reaches the cleanly closed state when cancellation is
observed at the select points. -/
theorem c3_reach_closed : FwdReach (fwdInit [] []) c3Closed :=
  Relation.ReflTransGen.head (FwdStep.cancel (fwdInit [] []) rfl)
    (Relation.ReflTransGen.head (FwdStep.hostSelectCancel _ rfl rfl)
      (Relation.ReflTransGen.head (FwdStep.tunSelectCancel _ rfl rfl)
        (Relation.ReflTransGen.head (FwdStep.closeSockets _ rfl rfl rfl)
          Relation.ReflTransGen.refl)))

/-- C3 amended witness: both parts applied at concrete states. -/
theorem c3_amended_witness :
    (c3Closed.hostLoop = .exited ∧ c3Closed.tunLoop = .exited ∧ c3Closed.cancelled = true) ∧
    (∃ t, FwdReach c3CancelAtSelect t ∧
      t.hostLoop = .exited ∧ t.tunLoop = .exited ∧
      t.listenerClosed = true ∧ t.rconnClosed = true) :=
  ⟨c3_amended.1 [] [] c3Closed c3_reach_closed rfl,
   c3_amended.2 c3CancelAtSelect rfl rfl rfl rfl⟩

/-! ## C4: the reply target of the forwarder -/

/-- A run with host datagrams from sources 1 then 2 followed by a reply:
the reply goes to 2, the most recent source. -/
theorem c4_reach_final : FwdReach c4Init c4Final :=
  Relation.ReflTransGen.head (FwdStep.hostSelectRead c4Init rfl rfl)
    (Relation.ReflTransGen.head (FwdStep.hostRead _ 1 [2] rfl rfl rfl)
      (Relation.ReflTransGen.head (FwdStep.hostSelectRead _ rfl rfl)
        (Relation.ReflTransGen.head (FwdStep.hostRead _ 2 [] rfl rfl rfl)
          (Relation.ReflTransGen.head (FwdStep.tunSelectRead _ rfl rfl)
            (Relation.ReflTransGen.head (FwdStep.tunRead _ 5 [] rfl rfl rfl)
              Relation.ReflTransGen.refl)))))

/-- C4 counterexample: the reply target is not the source of the first
inbound host datagram — after inbound datagrams from 1 and then 2, the
reply is sent to 2 while the first source was 1. -/
theorem c4_counterexample :
    ¬ (∀ s, FwdReach c4Init s → ∀ a ∈ s.replyTargets, some a = s.readSources.head?) := by
  intro hall
  have h := hall c4Final c4_reach_final 2 (by simp [c4Final])
  simp [c4Final] at h

/-- C4 (amended): the reply target is the source of the most recent inbound
host datagram: `clientAddr`, the address replies are written to, always
equals the last read source. -/
theorem c4_amended :
    ∀ (hi ti : List Nat) (s : FwdState), FwdReach (fwdInit hi ti) s →
      s.clientAddr = s.readSources.getLast? := by
  intro hi ti s h
  induction h with
  | refl => simp [fwdInit]
  | tail _ hstep ih =>
      cases hstep with
      | hostRead a rest h1 h2 h3 => simp [List.getLast?_concat]
      | _ => simpa using ih

/-- C4 amended witness at the concrete run. -/
theorem c4_amended_witness : c4Final.clientAddr = c4Final.readSources.getLast? :=
  c4_amended [1, 2] [5] c4Final c4_reach_final

/-! ## C1: invariants of the scanner available set -/

theorem addrNe_symm : Symmetric addrNe := fun _ _ h he => h he.symm

theorem enqueue_capacity (q : IPQueue) (x : IPInfo) : (Enqueue q x).capacity = q.capacity := by
  unfold Enqueue
  split
  · rfl
  · split
    · rfl
    · split
      · split
        · rfl
        · rfl
      · rfl

theorem applyQOp_capacity (q : IPQueue) (op : QOp) : (applyQOp q op).capacity = q.capacity := by
  cases op with
  | enq x => exact enqueue_capacity q x
  | expire now => rfl

theorem runQOps_capacity : ∀ (ops : List QOp) (q : IPQueue), (runQOps q ops).capacity = q.capacity
  | [], _ => rfl
  | op :: rest, q => by
      rw [runQOps, runQOps_capacity rest, applyQOp_capacity]

theorem queueInv_enqueue {q : IPQueue} (x : IPInfo) (h : QueueInv q) : QueueInv (Enqueue q x) := by
  obtain ⟨hlen, hsort, hpair⟩ := h
  unfold Enqueue
  split
  · exact ⟨hlen, hsort, hpair⟩
  · rename_i hdup
    have hx : ∀ y ∈ q.items, y.address ≠ x.address := by
      intro y hy he
      exact hdup (List.any_eq_true.mpr ⟨y, hy, by simp [he]⟩)
    split
    · rename_i hlt
      refine ⟨?_, hsort.orderedInsert x q.items, ?_⟩
      · simp only [List.orderedInsert_length]
        omega
      · have hcons : (x :: q.items).Pairwise addrNe :=
          List.pairwise_cons.mpr ⟨fun y hy he => hx y hy he.symm, hpair⟩
        exact ((q.items.perm_orderedInsert rttLE x).pairwise_iff (fun h => addrNe_symm h)).mpr hcons
    · rename_i hge
      split
      · rename_i m hm
        split
        · rename_i hrtt
          have hne : q.items ≠ [] := by
            intro he
            rw [he] at hm
            exact Option.noConfusion hm
          have hpos : 0 < q.items.length := List.length_pos.mpr hne
          have hsub : q.items.dropLast.Sublist q.items := List.dropLast_sublist q.items
          have hdlen : q.items.dropLast.length = q.items.length - 1 := List.length_dropLast _
          have hdsort : q.items.dropLast.Sorted rttLE := hsort.sublist hsub
          have hdpair : q.items.dropLast.Pairwise addrNe := hpair.sublist hsub
          refine ⟨?_, hdsort.orderedInsert x _, ?_⟩
          · simp only [List.orderedInsert_length]
            omega
          · have hcons : (x :: q.items.dropLast).Pairwise addrNe :=
              List.pairwise_cons.mpr
                ⟨fun y hy he => hx y (hsub.mem hy) he.symm, hdpair⟩
            exact ((q.items.dropLast.perm_orderedInsert rttLE x).pairwise_iff (fun h => addrNe_symm h)).mpr hcons
        · exact ⟨hlen, hsort, hpair⟩
      · exact ⟨hlen, hsort, hpair⟩

theorem queueInv_expire {q : IPQueue} (now : Nat) (h : QueueInv q) : QueueInv (Expire q now) := by
  obtain ⟨hlen, hsort, hpair⟩ := h
  refine ⟨?_, ?_, ?_⟩
  · exact le_trans (List.length_filter_le _ _) hlen
  · exact hsort.sublist (List.filter_sublist _)
  · exact hpair.sublist (List.filter_sublist _)

theorem queueInv_applyQOp {q : IPQueue} (op : QOp) (h : QueueInv q) : QueueInv (applyQOp q op) := by
  cases op with
  | enq x => exact queueInv_enqueue x h
  | expire now => exact queueInv_expire now h

theorem queueInv_runQOps : ∀ (ops : List QOp) (q : IPQueue), QueueInv q → QueueInv (runQOps q ops)
  | [], _, h => h
  | op :: rest, _, h => queueInv_runQOps rest _ (queueInv_applyQOp op h)

theorem queueInv_empty (cap ttl : Nat) : QueueInv (emptyQueue cap ttl) :=
  ⟨Nat.zero_le cap, List.Pairwise.nil, List.Pairwise.nil⟩

/-- C1 (amended): every queue state reachable from the empty queue by the
operations `Engine.Run` performs satisfies the three conditions (size at
most the capacity, RTT-ascending order, pairwise-distinct addresses), and
so does every snapshot: a `GetAvailableIPs` snapshot always has at most
`capacity` entries with pairwise-distinct addresses; the `desc = false`
snapshot is the set itself, sorted ascending by RTT, while the
`desc = true` snapshot is its reverse, sorted descending. -/
theorem c1_available_set_invariant :
    ∀ (cap ttl : Nat) (ops : List QOp) (desc : Bool),
      QueueInv (runQOps (emptyQueue cap ttl) ops) ∧
      (GetAvailableIPs (runQOps (emptyQueue cap ttl) ops) desc).length ≤ cap ∧
      (GetAvailableIPs (runQOps (emptyQueue cap ttl) ops) desc).Pairwise addrNe ∧
      GetAvailableIPs (runQOps (emptyQueue cap ttl) ops) false =
        (runQOps (emptyQueue cap ttl) ops).items ∧
      (GetAvailableIPs (runQOps (emptyQueue cap ttl) ops) false).Sorted rttLE ∧
      (GetAvailableIPs (runQOps (emptyQueue cap ttl) ops) true).Pairwise
        (fun a b => rttLE b a) := by
  intro cap ttl ops desc
  have hinv := queueInv_runQOps ops (emptyQueue cap ttl) (queueInv_empty cap ttl)
  obtain ⟨hlen, hsort, hpair⟩ := hinv
  have hcap : (runQOps (emptyQueue cap ttl) ops).capacity = cap := runQOps_capacity ops _
  rw [hcap] at hlen
  refine ⟨⟨by rw [hcap]; exact hlen, hsort, hpair⟩, ?_, ?_, rfl, hsort, ?_⟩
  · cases desc with
    | false => exact hlen
    | true => simpa [GetAvailableIPs, AvailableIPs] using hlen
  · cases desc with
    | false => exact hpair
    | true =>
        simp only [GetAvailableIPs, AvailableIPs, if_true]
        exact List.pairwise_reverse.mpr (hpair.imp fun h => Ne.symm h)
  · simp only [GetAvailableIPs, AvailableIPs, if_true]
    exact List.pairwise_reverse.mpr hsort

/-- C1 counterexample: a snapshot returned by `GetAvailableIPs` with
`desc = true` is not sorted ascending by RTT — after enqueuing results with
RTTs 5 and 3, the descending snapshot lists 5 before 3. -/
theorem c1_counterexample : ¬ (GetAvailableIPs c1QueueEx true).Sorted rttLE := by decide

/-! ## C6: peer keep-alive and trick configuration -/

/-- `ParsePeers` never reads a `Trick` key: every parsed peer has
`trick = false`. -/
theorem parsePeerSection_trick {s : IniSection} {p : PeerConfig}
    (h : parsePeerSection s = .ok p) : p.trick = false := by
  unfold parsePeerSection at h
  obtain ⟨pk, hpk, h⟩ := except_bind_ok h
  obtain ⟨psk, hpsk, h⟩ := except_bind_ok h
  obtain ⟨ka, hka, h⟩ := except_bind_ok h
  obtain ⟨ips, hips, h⟩ := except_bind_ok h
  have he := except_pure_ok h
  exact he ▸ rfl

theorem parsePeerSections_trick :
    ∀ (l : List IniSection) (ps : List PeerConfig), parsePeerSections l = .ok ps →
      ∀ p ∈ ps, p.trick = false
  | [], ps, h => by
      simp only [parsePeerSections, Except.ok.injEq] at h
      subst h
      simp
  | s :: rest, ps, h => by
      unfold parsePeerSections at h
      obtain ⟨p0, hp0, h⟩ := except_bind_ok h
      obtain ⟨ps0, hps0, h⟩ := except_bind_ok h
      have he := except_pure_ok h
      subst he
      intro p hp
      rcases List.mem_cons.mp hp with rfl | hp
      · exact parsePeerSection_trick hp0
      · exact parsePeerSections_trick rest ps0 hps0 p hp

theorem ParsePeers_trick {f : IniFile} {ps : List PeerConfig}
    (h : ParsePeers f = .ok ps) : ∀ p ∈ ps, p.trick = false := by
  unfold ParsePeers at h
  split at h
  · exact absurd h (by simp)
  · exact parsePeerSections_trick _ ps h

/-- C6: for every configuration the orchestrator parses, the outer-hop peer
setup (used by plain warp, the psiphon scenario and the outer hop of
warp-in-warp) yields `KeepAlive = 3` and `Trick = true` on every peer, and
the inner-hop setup yields `KeepAlive = 10` and `Trick = false` on every
peer, regardless of what the profile contained (the parser never sets
`Trick`). -/
theorem c6_peer_setup :
    ∀ (f : IniFile) (e : String) (conf : Configuration), ParseConfig f e = .ok conf →
      (∀ p ∈ outerPeerSetup conf.peers, p.keepAlive = 3 ∧ p.trick = true) ∧
      (∀ p ∈ innerPeerSetup conf.peers, p.keepAlive = 10 ∧ p.trick = false) := by
  intro f e conf h
  unfold ParseConfig at h
  obtain ⟨iface, hif, h⟩ := except_bind_ok h
  obtain ⟨peers, hpe, h⟩ := except_bind_ok h
  have hconf := except_pure_ok h
  have htr := ParsePeers_trick hpe
  constructor
  · intro p hp
    obtain ⟨p0, _, heq⟩ := List.mem_map.mp hp
    subst heq
    exact ⟨rfl, rfl⟩
  · intro p hp
    obtain ⟨p0, hp0, heq⟩ := List.mem_map.mp hp
    subst heq
    refine ⟨rfl, ?_⟩
    rw [← hconf] at hp0
    obtain ⟨q, hq, heq2⟩ := List.mem_map.mp hp0
    subst heq2
    exact htr q hq

/-- C6 witness at a concrete profile. -/
theorem c6_peer_setup_witness :
    (∀ p ∈ outerPeerSetup c6ConfEx.peers, p.keepAlive = 3 ∧ p.trick = true) ∧
    (∀ p ∈ innerPeerSetup c6ConfEx.peers, p.keepAlive = 10 ∧ p.trick = false) :=
  c6_peer_setup c6IniEx "10.0.0.1:2408" c6ConfEx rfl

/-! ## C7: the psiphon scenario data flow -/

theorem decChr_digit : ∀ m : Nat, 48 ≤ (decChr m).toNat ∧ (decChr m).toNat ≤ 57
  | 0 => by decide
  | 1 => by decide
  | 2 => by decide
  | 3 => by decide
  | 4 => by decide
  | 5 => by decide
  | 6 => by decide
  | 7 => by decide
  | 8 => by decide
  | _ + 9 => by
      show 48 ≤ ('9').toNat ∧ ('9').toNat ≤ 57
      decide

theorem natDecCore_digits :
    ∀ (fuel n : Nat) (acc : List Char), (∀ c ∈ acc, 48 ≤ c.toNat ∧ c.toNat ≤ 57) →
      ∀ c ∈ natDecCore fuel n acc, 48 ≤ c.toNat ∧ c.toNat ≤ 57
  | 0, n, acc, hacc, c, hc => by
      rcases List.mem_cons.mp hc with rfl | hc2
      · exact decChr_digit n
      · exact hacc c hc2
  | fuel + 1, n, acc, hacc, c, hc => by
      rw [natDecCore] at hc
      split at hc
      · rcases List.mem_cons.mp hc with rfl | hc2
        · exact decChr_digit n
        · exact hacc c hc2
      · refine natDecCore_digits fuel (n / 10) (decChr (n % 10) :: acc) ?_ c hc
        intro c2 hc2
        rcases List.mem_cons.mp hc2 with rfl | hc3
        · exact decChr_digit (n % 10)
        · exact hacc c2 hc3

theorem natDec_digits (n : Nat) : ∀ c ∈ (natDec n).data, 48 ≤ c.toNat ∧ c.toNat ≤ 57 :=
  natDecCore_digits n n [] (by simp)

theorem takeWhileAppendAll {α : Type} {p : α → Bool} :
    ∀ (l1 l2 : List α), (∀ c ∈ l1, p c = true) → (l1 ++ l2).takeWhile p = l1 ++ l2.takeWhile p
  | [], _, _ => rfl
  | c :: rest, l2, h => by
      have hc := h c (by simp)
      simp only [List.cons_append, List.takeWhile_cons, hc, if_true, List.cons.injEq, true_and]
      exact takeWhileAppendAll rest l2 (fun c2 hc2 => h c2 (by simp [hc2]))

theorem dropWhileAppendAll {α : Type} {p : α → Bool} :
    ∀ (l1 l2 : List α), (∀ c ∈ l1, p c = true) → (l1 ++ l2).dropWhile p = l2.dropWhile p
  | [], _, _ => rfl
  | c :: rest, l2, h => by
      have hc := h c (by simp)
      simp only [List.cons_append, List.dropWhile_cons, hc, if_true]
      exact dropWhileAppendAll rest l2 (fun c2 hc2 => h c2 (by simp [hc2]))

/-- `net.SplitHostPort` on `host:port` with a colon-free, bracket-free host
and an all-digit port returns the pair. -/
theorem splitHostPort_concat (h p : String)
    (hhc : ∀ c ∈ h.data, ¬ c = ':') (hhb : ∀ c ∈ h.data, ¬ c = '[')
    (hpd : ∀ c ∈ p.data, 48 ≤ c.toNat ∧ c.toNat ≤ 57) :
    splitHostPort (h ++ ":" ++ p) = some (h, p) := by
  have hpc : ∀ c ∈ p.data, ¬ c = ':' := by
    intro c hc he
    have := hpd c hc
    rw [he] at this
    simp at this
  have hdata : (h ++ ":" ++ p).data = h.data ++ ':' :: p.data := by
    simp [String.data_append]
  unfold splitHostPort
  rw [hdata]
  have hnb : ((h.data ++ ':' :: p.data).any (fun c => c = '[')) = false := by
    rw [List.any_eq_false]
    intro c hc
    simp only [decide_eq_true_eq]
    rcases List.mem_append.mp hc with hc | hc
    · exact hhb c hc
    · rcases List.mem_cons.mp hc with rfl | hc
      · decide
      · intro he
        have := hpd c hc
        rw [he] at this
        simp at this
  rw [hnb]
  simp only [Bool.false_eq_true, if_false]
  have hrev : (h.data ++ ':' :: p.data).reverse = p.data.reverse ++ ':' :: h.data.reverse := by
    simp
  rw [hrev]
  have hprev : ∀ c ∈ p.data.reverse, (fun c => decide (¬ c = ':')) c = true := by
    intro c hc
    simp only [decide_eq_true_eq]
    exact hpc c (List.mem_reverse.mp hc)
  rw [dropWhileAppendAll _ _ hprev, takeWhileAppendAll _ _ hprev]
  have hd : (':' :: h.data.reverse).dropWhile (fun c => ¬ c = ':') = ':' :: h.data.reverse := by
    simp [List.dropWhile_cons]
  have ht : (':' :: h.data.reverse).takeWhile (fun c => ¬ c = ':') = ([] : List Char) := by
    simp [List.takeWhile_cons]
  rw [hd, ht, List.append_nil]
  have hna : (h.data.reverse.any (fun c => c = ':')) = false := by
    rw [List.any_eq_false]
    intro c hc
    simp only [decide_eq_true_eq]
    exact hhc c (List.mem_reverse.mp hc)
  dsimp only
  rw [hna]
  simp [List.reverse_reverse]

/-- C7: in the psiphon scenario the mixed proxy is requested on the
loopback ephemeral address `127.0.0.1:0` independently of the caller bind
(so it is never the caller-specified address when that has a real port);
the actually-bound proxy address `127.0.0.1:osPort` becomes Psiphon's
upstream SOCKS URL; and the caller bind becomes Psiphon's local socks
listener (its port, with loopback hosts mapped to the default listen
interface). -/
theorem c7_psiphon_flow :
    ∀ (bind : AddrPort) (country : String) (osPort : Nat),
      (∀ c ∈ bind.addr.data, ¬ c = ':') → (∀ c ∈ bind.addr.data, ¬ c = '[') →
      runWarpWithPsiphonFlow bind country osPort =
        ({ addr := "127.0.0.1", port := 0 },
         { addr := "127.0.0.1", port := osPort },
         .ok { egressRegion := country,
               listenInterface :=
                 if startsWithChars "127.0.0".data bind.addr.data then "" else "any",
               localSocksProxyPort := natDec bind.port,
               upstreamProxyURL :=
                 "socks5://" ++ addrPortString { addr := "127.0.0.1", port := osPort },
               disableLocalHTTPProxy := true }) ∧
      (bind.port ≠ 0 → psiphonProxyBindRequest ≠ bind) := by
  intro bind country osPort hhc hhb
  constructor
  · unfold runWarpWithPsiphonFlow runPsiphonConfig
    rw [show addrPortString bind = bind.addr ++ ":" ++ natDec bind.port from rfl]
    rw [splitHostPort_concat bind.addr (natDec bind.port) hhc hhb (natDec_digits bind.port)]
    rfl
  · intro hport heq
    exact hport (congrArg AddrPort.port heq).symm

/-- C7 witness at concrete inputs. -/
theorem c7_psiphon_flow_witness :
    runWarpWithPsiphonFlow { addr := "127.0.0.1", port := 8086 } "JP" 43211 =
      ({ addr := "127.0.0.1", port := 0 },
       { addr := "127.0.0.1", port := 43211 },
       .ok { egressRegion := "JP", listenInterface := "",
             localSocksProxyPort := natDec 8086,
             upstreamProxyURL :=
               "socks5://" ++ addrPortString { addr := "127.0.0.1", port := 43211 },
             disableLocalHTTPProxy := true }) :=
  (c7_psiphon_flow { addr := "127.0.0.1", port := 8086 } "JP" 43211
    (by decide) (by decide)).1

/-! ## C8: the profile round trip -/

theorem canonicalValue_ne_empty {s : String} (h : canonicalValue s = true) : s ≠ "" := by
  intro he
  subst he
  exact absurd h (by decide)

theorem valueWithShadows_of_ne (n : String) (vs : List String) (h : ∀ v ∈ vs, v ≠ "") :
    valueWithShadows ⟨n, vs⟩ = vs := by
  cases vs with
  | nil => rfl
  | cons v rest =>
      cases rest with
      | nil =>
          show (if v = "" then [] else [v]) = [v]
          rw [if_neg (h v (by simp))]
      | cons v2 rest2 => rfl

theorem flatten_splitTrim :
    ∀ vs : List String, (∀ v ∈ vs, canonicalValue v = true) → (vs.map splitTrim).flatten = vs
  | [], _ => rfl
  | v :: rest, h => by
      have hv : splitTrim v = [v] := by
        have hcv := h v (by simp)
        unfold canonicalValue at hcv
        exact eq_of_beq hcv
      simp only [List.map_cons, List.flatten_cons, hv, List.singleton_append]
      rw [flatten_splitTrim rest (fun v2 hv2 => h v2 (by simp [hv2]))]

theorem stringsWithShadows_canonical {k : IniKey} (h : ∀ v ∈ k.values, canonicalValue v = true) :
    stringsWithShadows k = k.values := by
  obtain ⟨n, vs⟩ := k
  unfold stringsWithShadows
  rw [show (IniKey.mk n vs).values = vs from rfl] at h
  rw [show valueWithShadows ⟨n, vs⟩ = vs from
    valueWithShadows_of_ne n vs (fun v hv => canonicalValue_ne_empty (h v hv))]
  exact flatten_splitTrim vs h

theorem parseAddressValues_canonical :
    ∀ addrs : List String, (∀ a ∈ addrs, canonicalAddress a = true) →
      parseAddressValues (addrs.map addrWithMask) = .ok addrs
  | [], _ => rfl
  | a :: rest, h => by
      have ha := h a (by simp)
      unfold canonicalAddress at ha
      simp only [Bool.and_eq_true] at ha
      obtain ⟨-, hm⟩ := ha
      cases hpc : parseCidr (addrWithMask a) with
      | none => rw [hpc] at hm; simp at hm
      | some cid =>
          rw [hpc] at hm
          simp only [beq_iff_eq] at hm
          simp only [List.map_cons, parseAddressValues, hpc]
          rw [parseAddressValues_canonical rest (fun x hx => h x (by simp [hx]))]
          simp only [Bind.bind, Except.bind, pure, Except.pure, hm]

theorem parseDnsValues_canonical :
    ∀ l : List String, (∀ a ∈ l, canonicalDns a = true) → parseDnsValues l = .ok l
  | [], _ => rfl
  | a :: rest, h => by
      have ha := h a (by simp)
      unfold canonicalDns at ha
      simp only [Bool.and_eq_true, beq_iff_eq] at ha
      simp only [parseDnsValues, ha.1]
      rw [parseDnsValues_canonical rest (fun x hx => h x (by simp [hx]))]
      simp only [Bind.bind, Except.bind, pure, Except.pure]

theorem parseCidrValues_canonical :
    ∀ l : List Cidr, (∀ x ∈ l, canonicalCidr x = true) →
      parseCidrValues (l.map cidrString) = .ok l
  | [], _ => rfl
  | x :: rest, h => by
      have hx := h x (by simp)
      unfold canonicalCidr at hx
      simp only [Bool.and_eq_true, beq_iff_eq] at hx
      simp only [List.map_cons, parseCidrValues, hx.1]
      rw [parseCidrValues_canonical rest (fun y hy => h y (by simp [hy]))]
      simp only [Bind.bind, Except.bind, pure, Except.pure]

theorem peerSections_filter_iface :
    ∀ ps : List PeerConfig,
      (ps.map peerSection).filter (fun s => nameEq s.name "Interface") = []
  | [] => rfl
  | p :: rest => by
      have hne : nameEq "Peer" "Interface" = false := by decide
      have hne2 : nameEq (peerSection p).name "Interface" = false := hne
      simp only [List.map_cons, List.filter_cons, hne2, Bool.false_eq_true, if_false]
      exact peerSections_filter_iface rest

theorem peerSections_filter_peer :
    ∀ ps : List PeerConfig,
      (ps.map peerSection).filter (fun s => nameEq s.name "Peer") = ps.map peerSection
  | [] => rfl
  | p :: rest => by
      have heq : nameEq "Peer" "Peer" = true := by decide
      have heq2 : nameEq (peerSection p).name "Peer" = true := heq
      simp only [List.map_cons, List.filter_cons, heq2, if_true]
      rw [peerSections_filter_peer rest]

theorem sectionsByName_serialize_iface (c : Configuration) :
    sectionsByName (serializeConfig c) "Interface" = [ifaceSection c] := by
  have heq : nameEq "Interface" "Interface" = true := by decide
  have heq2 : nameEq (ifaceSection c).name "Interface" = true := heq
  unfold sectionsByName serializeConfig
  simp only [List.filter_cons, heq2, if_true]
  rw [peerSections_filter_iface c.peers]

theorem sectionsByName_serialize_peers (c : Configuration) :
    sectionsByName (serializeConfig c) "Peer" = c.peers.map peerSection := by
  have hne : nameEq "Interface" "Peer" = false := by decide
  have hne2 : nameEq (ifaceSection c).name "Peer" = false := hne
  unfold sectionsByName serializeConfig
  simp only [List.filter_cons, hne2, Bool.false_eq_true, if_false]
  exact peerSections_filter_peer c.peers

theorem ParseInterface_serialize (c : Configuration) (e : String)
    (hc : CanonicalConfig c e = true) : ParseInterface (serializeConfig c) = .ok c.interface := by
  simp only [CanonicalConfig, Bool.and_eq_true, List.all_eq_true] at hc
  obtain ⟨⟨⟨⟨⟨hkey, haddr⟩, hdns⟩, hmtu⟩, -⟩, -⟩ := hc
  have hA : sectionStrings (ifaceSection c) "Address" =
      c.interface.addresses.map addrWithMask := by
    unfold sectionStrings
    rw [show getKey (ifaceSection c) "Address" =
      some ⟨"Address", c.interface.addresses.map addrWithMask⟩ from rfl]
    refine stringsWithShadows_canonical ?_
    intro v hv
    obtain ⟨a, hain, rfl⟩ := List.mem_map.mp hv
    have ha := haddr a hain
    unfold canonicalAddress at ha
    simp only [Bool.and_eq_true] at ha
    exact ha.1.2
  have hD : sectionStrings (ifaceSection c) "DNS" = c.interface.dns := by
    unfold sectionStrings
    rw [show getKey (ifaceSection c) "DNS" = some ⟨"DNS", c.interface.dns⟩ from rfl]
    refine stringsWithShadows_canonical ?_
    intro v hv
    have hd := hdns v hv
    unfold canonicalDns at hd
    simp only [Bool.and_eq_true] at hd
    exact hd.2
  have hM : parseIntField (ifaceSection c) "MTU" = .ok 0 := by
    unfold parseIntField
    rw [show getKey (ifaceSection c) "MTU" = none from rfl]
  unfold ParseInterface
  rw [sectionsByName_serialize_iface]
  dsimp only
  rw [hA, parseAddressValues_canonical _ haddr]
  simp only [Bind.bind, Except.bind]
  rw [show sectionKeyStr (ifaceSection c) "PrivateKey" =
    b64OfHexKey c.interface.privateKey from rfl]
  rw [canonicalKeyHex_roundtrip hkey]
  rw [hD, parseDnsValues_canonical _ hdns, hM]
  simp only [pure, Except.pure, Except.ok.injEq]
  have hm0 : c.interface.mtu = 0 := by simpa using hmtu
  rw [← hm0]

theorem canonicalPeer_fields {e : String} {p : PeerConfig} (h : canonicalPeer e p = true) :
    canonicalKeyHex p.publicKey = true ∧ p.preSharedKey = zeros64 ∧ p.keepAlive = 0 ∧
    (∀ x ∈ p.allowedIPs, canonicalCidr x = true) ∧ p.endpoint = e ∧ p.trick = false := by
  unfold canonicalPeer at h
  simp only [Bool.and_eq_true, List.all_eq_true, beq_iff_eq] at h
  obtain ⟨⟨⟨⟨⟨h1, h2⟩, h3⟩, h4⟩, h5⟩, h6⟩ := h
  exact ⟨h1, h2, h3, h4, h5, by simpa using h6⟩

theorem parsePeerSection_serialize (e : String) (p : PeerConfig)
    (hp : canonicalPeer e p = true) : parsePeerSection (peerSection p) = .ok p := by
  obtain ⟨hkey, hpsk, hka, hips, -, htr⟩ := canonicalPeer_fields hp
  have h1 : parseKeyField (peerSection p) "PublicKey" "" = .ok p.publicKey := by
    unfold parseKeyField
    rw [show getKey (peerSection p) "PublicKey" =
      some ⟨"PublicKey", [b64OfHexKey p.publicKey]⟩ from rfl]
    exact canonicalKeyHex_roundtrip hkey
  have h2 : parseKeyField (peerSection p) "PreSharedKey" zeros64 = .ok zeros64 := by
    unfold parseKeyField
    rw [show getKey (peerSection p) "PreSharedKey" = none from rfl]
  have h3 : parseIntField (peerSection p) "PersistentKeepalive" = .ok 0 := by
    unfold parseIntField
    rw [show getKey (peerSection p) "PersistentKeepalive" = none from rfl]
  have h4 : sectionStrings (peerSection p) "AllowedIPs" = p.allowedIPs.map cidrString := by
    unfold sectionStrings
    rw [show getKey (peerSection p) "AllowedIPs" =
      some ⟨"AllowedIPs", p.allowedIPs.map cidrString⟩ from rfl]
    refine stringsWithShadows_canonical ?_
    intro v hv
    obtain ⟨x, hx, rfl⟩ := List.mem_map.mp hv
    have hcx := hips x hx
    unfold canonicalCidr at hcx
    simp only [Bool.and_eq_true] at hcx
    exact hcx.2
  unfold parsePeerSection
  rw [h1, h2, h3, h4, parseCidrValues_canonical _ hips]
  simp only [Bind.bind, Except.bind, pure, Except.pure, Except.ok.injEq]
  rw [show sectionKeyStr (peerSection p) "Endpoint" = p.endpoint from rfl]
  obtain ⟨ppk, ppsk, pep, pka, pips, ptr⟩ := p
  simp only at hpsk hka htr
  rw [hpsk, hka, htr]

theorem parsePeerSections_serialize (e : String) :
    ∀ ps : List PeerConfig, (∀ p ∈ ps, canonicalPeer e p = true) →
      parsePeerSections (ps.map peerSection) = .ok ps
  | [], _ => rfl
  | p :: rest, h => by
      simp only [List.map_cons, parsePeerSections]
      rw [parsePeerSection_serialize e p (h p (by simp))]
      rw [parsePeerSections_serialize e rest (fun q hq => h q (by simp [hq]))]
      rfl

theorem map_endpoint_self :
    ∀ (ps : List PeerConfig) (e : String), (∀ p ∈ ps, p.endpoint = e) →
      ps.map (fun p => { p with endpoint := e }) = ps
  | [], _, _ => rfl
  | p :: rest, e, h => by
      have h1 : ({ p with endpoint := e } : PeerConfig) = p := by
        have hpe := h p (by simp)
        cases p
        simp_all
      simp only [List.map_cons, h1]
      rw [map_endpoint_self rest e (fun q hq => h q (by simp [hq]))]

theorem ParsePeers_serialize (c : Configuration) (e : String)
    (hpne : c.peers ≠ []) (hpeers : ∀ p ∈ c.peers, canonicalPeer e p = true) :
    ParsePeers (serializeConfig c) = .ok c.peers := by
  unfold ParsePeers
  rw [sectionsByName_serialize_peers]
  cases hps : c.peers with
  | nil => exact absurd hps hpne
  | cons p0 rest =>
      have hser := parsePeerSections_serialize e (p0 :: rest)
        (fun q hq => hpeers q (hps.symm ▸ hq))
      simp only [List.map_cons] at hser ⊢
      rw [hser]

/-- C8 (amended): for a canonically encoded configuration — keys in hex of
32 bytes, canonical address texts, profile-unrecorded fields at their
defaults, all peer endpoints equal to the endpoint later passed to
`ParseConfig` — parsing the serialized profile yields the configuration
back. -/
theorem c8_roundtrip_canonical :
    ∀ (c : Configuration) (e : String), CanonicalConfig c e = true →
      ParseConfig (serializeConfig c) e = .ok c := by
  intro c e hc
  have hc2 := hc
  simp only [CanonicalConfig, Bool.and_eq_true, List.all_eq_true] at hc2
  obtain ⟨⟨-, hpne⟩, hpeers⟩ := hc2
  have hpne2 : c.peers ≠ [] := by
    intro h
    rw [h] at hpne
    simp at hpne
  have hend : ∀ q ∈ c.peers, q.endpoint = e := fun q hq =>
    (canonicalPeer_fields (hpeers q hq)).2.2.2.2.1
  unfold ParseConfig
  rw [ParseInterface_serialize c e hc]
  simp only [Bind.bind, Except.bind]
  rw [ParsePeers_serialize c e hpne2 hpeers]
  simp only [pure, Except.pure, Except.ok.injEq]
  rw [map_endpoint_self c.peers e hend]

/-- C8 witness for the amended round trip at a concrete canonical
configuration. -/
theorem c8_roundtrip_canonical_witness :
    ParseConfig (serializeConfig c8CanonEx) "162.159.192.1:2408" = .ok c8CanonEx :=
  c8_roundtrip_canonical c8CanonEx "162.159.192.1:2408" (by decide)

/-- C8 counterexample: parse after serialize is not the identity — the
profile format records no keep-alive, so a canonically-encoded
configuration whose peer keep-alive is 3 parses back with keep-alive 0. -/
theorem c8_counterexample :
    ParseConfig (serializeConfig c8BadEx) "162.159.192.1:2408" ≠ .ok c8BadEx := by decide

end WarpPlus
